import Mathlib

/-!
Verification development for the `config` Go package (github.com/josemukorivo/config).

The package binds environment-variable values into the fields of a (possibly
nested) struct.  The embedding below translates the current sources:

* `config.go`   — `Parse` (LookupEnv-based resolver loop over extracted fields)
* `fields.go` / `unnamed/part_001` — `Field`, `extractFields`, `parseField`
  (with `Setter` probing and the string-keyed-map JSON case), `extractInterface`,
  `extractSetter`, `isTrue`
* `unnamed/part_000` — the older Getenv-based `Parse` variant

Go structs are embedded as the inductive `Rec`; machine-level collaborators
(`os.LookupEnv`, `strings.ToUpper`, `strconv.*`, `time.ParseDuration`,
`encoding/json`) are modelled as executable Lean functions, with simplifications
noted in their doc comments.  The ambient environment is a lookup function,
matching the spec's "ambient key-value environment" abstraction; `.env`-file
loading (`godotenv.Load`) is outside the engine and is treated as having
already populated that environment.
-/

namespace GoConfig

/-- Ambient environment: process key-value store, as read by `os.LookupEnv`.
`none` models an unset variable. -/
abbrev Env := String → Option String

/-- Character constants used by the map-literal micro-parser (kept as named
definitions because they are repeatedly compared against). -/
def dquoteC : Char := Char.ofNat 34

/-- Single-quote character. -/
def squoteC : Char := Char.ofNat 39

/-- Backslash character. -/
def bslashC : Char := Char.ofNat 92

/-- Opening curly bracket character. -/
def lbraceC : Char := Char.ofNat 123

/-- Closing curly bracket character. -/
def rbraceC : Char := Char.ofNat 125

/-- ASCII upper-casing of one character.  Models `strings.ToUpper` per
character; the package only ever upper-cases ASCII field names and tags, so
non-ASCII case mapping is not modelled. -/
def charUpper (c : Char) : Char :=
  if 'a' ≤ c ∧ c ≤ 'z' then Char.ofNat (c.toNat - 32) else c

/-- Models `strings.ToUpper` (ASCII range). -/
def goToUpper (s : String) : String := String.mk (s.data.map charUpper)

/-- ASCII whitespace recognised by `strings.TrimSpace` (the Unicode space
classes beyond ASCII are not modelled). -/
def isGoSpace (c : Char) : Bool :=
  c = ' ' ∨ c = Char.ofNat 9 ∨ c = Char.ofNat 10 ∨ c = Char.ofNat 13 ∨
  c = Char.ofNat 11 ∨ c = Char.ofNat 12

/-- Models `strings.TrimSpace` on the character list of a string. -/
def trimChars (cs : List Char) : List Char :=
  ((cs.dropWhile isGoSpace).reverse.dropWhile isGoSpace).reverse

/-- Models `os.LookupEnv`: the empty variable name is never set in a process
environment, so looking it up always misses. -/
def goLookupEnv (env : Env) (k : String) : Option String :=
  if k = "" then none else env k

/-- Models `os.Getenv`: like `os.LookupEnv` but collapsing "unset" to the
empty string. -/
def goGetenv (env : Env) (k : String) : String := (goLookupEnv env k).getD ""

/-- Value of a hexadecimal digit character, if any. -/
def hexDigitVal (c : Char) : Option Nat :=
  if '0' ≤ c ∧ c ≤ '9' then some (c.toNat - '0'.toNat)
  else if 'a' ≤ c ∧ c ≤ 'f' then some (c.toNat - 'a'.toNat + 10)
  else if 'A' ≤ c ∧ c ≤ 'F' then some (c.toNat - 'A'.toNat + 10)
  else none

/-- Accumulating digit parser for `strconv.ParseInt`-style digit strings. -/
def parseDigitsAux (base : Nat) : List Char → Nat → Option Nat
  | [], acc => some acc
  | c :: rest, acc =>
    match hexDigitVal c with
    | some d => if d < base then parseDigitsAux base rest (base * acc + d) else none
    | none => none

/-- Parse a non-empty digit string in the given base. -/
def parseDigits (base : Nat) (cs : List Char) : Option Nat :=
  match cs with
  | [] => none
  | _ => parseDigitsAux base cs 0

/-- Base-prefix detection for `strconv.ParseInt` with base argument `0`:
`0x`/`0X` hexadecimal, `0o`/`0O` octal, `0b`/`0B` binary, a bare leading `0`
legacy octal, else decimal. -/
def splitBaseDigits : List Char → Nat × List Char
  | '0' :: 'x' :: rest => (16, rest)
  | '0' :: 'X' :: rest => (16, rest)
  | '0' :: 'o' :: rest => (8, rest)
  | '0' :: 'O' :: rest => (8, rest)
  | '0' :: 'b' :: rest => (2, rest)
  | '0' :: 'B' :: rest => (2, rest)
  | '0' :: rest => (8, '0' :: rest)
  | cs => (10, cs)

/-- Models `strconv.ParseInt(s, 0, bits)`: optional sign, automatic base
detection, signed range check for the target bit width.  Returns `none` on any
syntax or range error (the Go function also returns a clamped value alongside
its error, which the callers never use).  Digit-group underscores (accepted by
Go since 1.13) are not modelled. -/
def goParseInt (s : String) (bits : Nat) : Option Int :=
  match s.data with
  | [] => none
  | cs =>
    let signed : Bool × List Char :=
      match cs with
      | '-' :: r => (true, r)
      | '+' :: r => (false, r)
      | r => (false, r)
    let bd := splitBaseDigits signed.2
    match parseDigits bd.1 bd.2 with
    | none => none
    | some n =>
      if signed.1 then
        if n ≤ 2 ^ (bits - 1) then some (-(n : Int)) else none
      else
        if n < 2 ^ (bits - 1) then some (n : Int) else none

/-- Models `strconv.ParseBool`: the exact literal set accepted by Go. -/
def goParseBool (s : String) : Option Bool :=
  if s = "1" ∨ s = "t" ∨ s = "T" ∨ s = "TRUE" ∨ s = "true" ∨ s = "True" then
    some true
  else if s = "0" ∨ s = "f" ∨ s = "F" ∨ s = "FALSE" ∨ s = "false" ∨ s = "False" then
    some false
  else none

/-- Source `isTrue` (`unnamed/part_001`): `b, _ := strconv.ParseBool(value)`
discards the error, so unparseable means `false`. -/
def isTrue (s : String) : Bool := (goParseBool s).getD false

/-- Models `strconv.ParseFloat` restricted to decimal/scientific notation,
with the value represented exactly as a rational (bit-width rounding, `inf`,
`nan`, hexadecimal floats and digit underscores are not modelled; no claim
depends on float values, only on whether a float field has a built-in rule). -/
def goParseFloat (s : String) : Option Rat :=
  match s.data with
  | [] => none
  | cs =>
    let signed : Bool × List Char :=
      match cs with
      | '-' :: r => (true, r)
      | '+' :: r => (false, r)
      | r => (false, r)
    let mantExp := signed.2.span (fun c => ¬ (c = 'e' ∨ c = 'E'))
    let eVal : Option Int :=
      match mantExp.2 with
      | [] => some 0
      | _ :: expPart =>
        match expPart with
        | '-' :: ds => (parseDigits 10 ds).map (fun n => -(n : Int))
        | '+' :: ds => (parseDigits 10 ds).map (fun n => (n : Int))
        | ds => (parseDigits 10 ds).map (fun n => (n : Int))
    let ipfp := mantExp.1.span (fun c => c ≠ '.')
    let mant : Option (Nat × Nat) :=
      match ipfp.2 with
      | [] => (parseDigits 10 ipfp.1).map (fun n => (n, 0))
      | _ :: fp =>
        if ipfp.1 = [] ∧ fp = [] then none
        else
          match parseDigits 10 (ipfp.1 ++ fp) with
          | some n => some (n, fp.length)
          | none => none
    match mant, eVal with
    | some (n, fl), some e =>
      let mag : Rat := (n : Rat) / ((10 : Rat) ^ fl) * ((10 : Rat) ^ (e : Int))
      some (if signed.1 then -mag else mag)
    | _, _ => none

/-- Nanoseconds per duration unit, as in `time.ParseDuration`. -/
def durUnitNs : List Char → Option Nat
  | ['n', 's'] => some 1
  | ['u', 's'] => some 1000
  | ['µ', 's'] => some 1000
  | ['m', 's'] => some 1000000
  | ['s'] => some 1000000000
  | ['m'] => some 60000000000
  | ['h'] => some 3600000000000
  | _ => none

/-- Models `time.ParseDuration` restricted to a single integer component with
unit (for example `2s`, `150ms`) plus the bare literal `0`; fractions and
multi-component literals such as `1h30m` are not modelled (no claim depends on
them).  The result is the count of nanoseconds, Go's `int64` duration value. -/
def goParseDuration (s : String) : Option Int :=
  match s.data with
  | ['0'] => some 0
  | cs =>
    let signed : Bool × List Char :=
      match cs with
      | '-' :: r => (true, r)
      | '+' :: r => (false, r)
      | r => (false, r)
    let dsu := signed.2.span Char.isDigit
    match parseDigits 10 dsu.1, durUnitNs dsu.2 with
    | some n, some u =>
      some (if signed.1 then -((n * u : Nat) : Int) else ((n * u : Nat) : Int))
    | _, _ => none

/-- Typed contents of a leaf field's storage.  Integers (including the
duration flavour) are `reflect.Value.SetInt` targets, floats are represented
exactly as rationals, and a string-keyed map is its association list in
insertion order (Go map iteration order is not observable to this engine). -/
inductive GoValue where
  | vString (s : String)
  | vInt (n : Int)
  | vBool (b : Bool)
  | vFloat (q : Rat)
  | vMap (entries : List (String × String))
  | vOther
deriving DecidableEq, Repr

/-- Declared type of a leaf field, as `parseField` inspects it through
`reflect`: the kind switch plus the extra attributes it reads.  `tInt bits
isDuration` covers the `Int*` kinds (`bits` from `Type().Bits()`;
`isDuration` is the `Kind() == Int64 && PkgPath() == "time" && Name() ==
"Duration"` test).  `tMap keyIsString` records whether `Type().Key().Kind()`
is `reflect.String`; map values are modelled at type `string`, the
instantiation every claim uses.  `tOther` is any kind with no case in the
switch (unsigned integers, slices, channels, ...), carrying its kind name. -/
inductive GoType where
  | tString
  | tInt (bits : Nat) (isDuration : Bool)
  | tBool
  | tFloat (bits : Nat)
  | tMap (keyIsString : Bool)
  | tOther (kindName : String)
deriving DecidableEq, Repr

/-- Printable name for a field's declared type (`Type().String()`), used in
the newer `FieldError`. -/
def typeName : GoType → String
  | .tString => "string"
  | .tInt _ true => "time.Duration"
  | .tInt bits false => "int" ++ toString bits
  | .tBool => "bool"
  | .tFloat bits => "float" ++ toString bits
  | .tMap _ => "map[string]string"
  | .tOther k => k

/-- Printable kind name (`Kind().String()`), used in the older `FieldError`.
The exact rendering is not load-bearing for any claim. -/
def kindString : GoType → String
  | .tString => "string"
  | .tInt bits _ => "int" ++ toString bits
  | .tBool => "bool"
  | .tFloat bits => "float" ++ toString bits
  | .tMap _ => "map"
  | .tOther k => k

/-- A leaf field's storage cell together with the capabilities `parseField`
probes on it.  A `Setter` is modelled as a function from the raw string to
either an error message or the new cell contents; `setterOnValue` is the
capability exposed by the field value itself (`field.Interface()`),
`setterOnAddr` the one exposed by its address (`field.Addr().Interface()`).
`canInterface`/`canAddr` are the corresponding `reflect` capability tests
(both are true for the exported addressable fields `Parse` reaches). -/
structure FieldVal where
  ty : GoType
  val : GoValue
  canInterface : Bool := true
  canAddr : Bool := true
  setterOnValue : Option (String → Except String GoValue) := none
  setterOnAddr : Option (String → Except String GoValue) := none

/-- Source `extractSetter`/`extractInterface` (`fields.go`,
`unnamed/part_001`): probe the `Setter` capability on the field value first
(`CanInterface`), and only if that misses on a reference to the field
(`CanAddr`). -/
def extractSetter (fv : FieldVal) : Option (String → Except String GoValue) :=
  match (if fv.canInterface then fv.setterOnValue else none) with
  | some s => some s
  | none => if fv.canAddr then fv.setterOnAddr else none

/-- Coercion failure causes, mirroring the error values `parseField` can
return: a custom setter's error, the wrapped `strconv`/`time` parse errors,
the literal `map keys must be strings` error, and a `json.Unmarshal` error. -/
inductive CoerceErr where
  | setterErr (msg : String)
  | intErr (s : String)
  | durationErr (s : String)
  | boolErr (s : String)
  | floatErr (s : String)
  | mapKeyNotString
  | jsonErr (msg : String)
deriving DecidableEq, Repr

/-- One escape character of a Go double-quoted string literal, as
`strconv.Unquote` decodes it (`\x`, `\u`, `\U` and octal escapes are not
modelled). -/
def goEscChar (c : Char) : Option Char :=
  if c = 'a' then some (Char.ofNat 7)
  else if c = 'b' then some (Char.ofNat 8)
  else if c = 'f' then some (Char.ofNat 12)
  else if c = 'n' then some (Char.ofNat 10)
  else if c = 'r' then some (Char.ofNat 13)
  else if c = 't' then some (Char.ofNat 9)
  else if c = 'v' then some (Char.ofNat 11)
  else if c = bslashC then some bslashC
  else if c = squoteC then some squoteC
  else if c = dquoteC then some dquoteC
  else none

/-- Body scanner for `goUnquote`: consumes until the closing double quote,
which must end the input; rejects raw newlines and unknown escapes. -/
def goUnquoteAux : List Char → List Char → Option (List Char)
  | [], _ => none
  | c :: rest, acc =>
    if c = dquoteC then
      match rest with
      | [] => some acc.reverse
      | _ => none
    else if c = bslashC then
      match rest with
      | [] => none
      | e :: rest2 =>
        match goEscChar e with
        | some ec => goUnquoteAux rest2 (ec :: acc)
        | none => none
    else if c = Char.ofNat 10 then none
    else goUnquoteAux rest (c :: acc)

/-- Models `strconv.Unquote` for a double-quoted literal (the only form the
map coercion path can feed it; rune and raw-string literals are not
modelled). -/
def goUnquote (cs : List Char) : Option (List Char) :=
  match cs with
  | c :: rest => if c = dquoteC then goUnquoteAux rest [] else none
  | [] => none

/-- Interior of a string after removing its first and last character
(`mapValue[1 : len(mapValue)-1]`). -/
def interior (cs : List Char) : List Char := (cs.drop 1).dropLast

/-- The quote-stripping step of the map coercion (`unnamed/part_001`, lines
204-214): one layer of surrounding double quotes is removed via `Unquote`
(falling back to plain interior slicing if `Unquote` errors); one layer of
surrounding single quotes is sliced off; anything else passes through. -/
def stripQuotesChars (cs : List Char) : List Char :=
  if 2 ≤ cs.length ∧ cs.head? = some dquoteC ∧ cs.getLast? = some dquoteC then
    match goUnquote cs with
    | some u => u
    | none => interior cs
  else if 2 ≤ cs.length ∧ cs.head? = some squoteC ∧ cs.getLast? = some squoteC then
    interior cs
  else cs

/-- JSON whitespace. -/
def jsonWs (c : Char) : Bool :=
  c = ' ' ∨ c = Char.ofNat 9 ∨ c = Char.ofNat 10 ∨ c = Char.ofNat 13

/-- Skip JSON whitespace. -/
def skipWs (cs : List Char) : List Char := cs.dropWhile jsonWs

/-- JSON string-body scanner: after the opening quote, decode characters and
escapes until the closing quote, returning the decoded string and the rest of
the input.  `\uXXXX` escapes decode a single code unit (surrogate pairing is
not modelled); raw control characters are rejected. -/
def jsonStringAux : List Char → List Char → Option (String × List Char)
  | [], _ => none
  | c :: rest, acc =>
    if c = dquoteC then some (String.mk acc.reverse, rest)
    else if c = bslashC then
      match rest with
      | [] => none
      | e :: rest2 =>
        if e = dquoteC then jsonStringAux rest2 (dquoteC :: acc)
        else if e = bslashC then jsonStringAux rest2 (bslashC :: acc)
        else if e = '/' then jsonStringAux rest2 ('/' :: acc)
        else if e = 'b' then jsonStringAux rest2 (Char.ofNat 8 :: acc)
        else if e = 'f' then jsonStringAux rest2 (Char.ofNat 12 :: acc)
        else if e = 'n' then jsonStringAux rest2 (Char.ofNat 10 :: acc)
        else if e = 'r' then jsonStringAux rest2 (Char.ofNat 13 :: acc)
        else if e = 't' then jsonStringAux rest2 (Char.ofNat 9 :: acc)
        else if e = 'u' then
          match rest2 with
          | h1 :: h2 :: h3 :: h4 :: rest3 =>
            match hexDigitVal h1, hexDigitVal h2, hexDigitVal h3, hexDigitVal h4 with
            | some a, some b, some c', some d =>
              jsonStringAux rest3 (Char.ofNat (((a * 16 + b) * 16 + c') * 16 + d) :: acc)
            | _, _, _, _ => none
          | _ => none
        else none
    else if c.toNat < 32 then none
    else jsonStringAux rest (c :: acc)

/-- Parse one JSON string token (opening quote included). -/
def jsonString : List Char → Option (String × List Char)
  | c :: rest => if c = dquoteC then jsonStringAux rest [] else none
  | _ => none

/-- Insert-or-overwrite into an association list: `json.Unmarshal` into a Go
map assigns `m[k] = v`, so a duplicate key keeps the later value. -/
def upsert : List (String × String) → String → String → List (String × String)
  | [], k, v => [(k, v)]
  | (k', v') :: rest, k, v =>
    if k' = k then (k, v) :: rest else (k', v') :: upsert rest k v

/-- Member list of a JSON object with string values, fuelled by the input
length (each member consumes at least one character, so the fuel never runs
out on real input). -/
def jsonMembers (fuel : Nat) (cs : List Char) (acc : List (String × String)) :
    Option (List (String × String) × List Char) :=
  match fuel with
  | 0 => none
  | fuel + 1 =>
    match jsonString (skipWs cs) with
    | none => none
    | some (k, r1) =>
      match skipWs r1 with
      | c :: r2 =>
        if c = ':' then
          match jsonString (skipWs r2) with
          | none => none
          | some (v, r3) =>
            match skipWs r3 with
            | c2 :: r4 =>
              if c2 = ',' then jsonMembers fuel r4 (upsert acc k v)
              else some (upsert acc k v, c2 :: r4)
            | [] => some (upsert acc k v, [])
        else none
      | [] => none

/-- Models `json.Unmarshal` of a `map[string]string` target: a JSON object
literal whose member values are strings, with nothing but whitespace after the
closing bracket.  Error messages summarise the Go error classes; their exact
text is not load-bearing. -/
def jsonParseStrMap (cs : List Char) : Except String (List (String × String)) :=
  match skipWs cs with
  | c :: r1 =>
    if c = lbraceC then
      match skipWs r1 with
      | c2 :: r2 =>
        if c2 = rbraceC then
          if skipWs r2 = [] then .ok [] else .error "invalid character after top-level value"
        else
          match jsonMembers (r2.length + 2) (c2 :: r2) [] with
          | some (m, rest) =>
            match skipWs rest with
            | c3 :: r3 =>
              if c3 = rbraceC then
                if skipWs r3 = [] then .ok m
                else .error "invalid character after top-level value"
              else .error "invalid character in object"
            | [] => .error "unexpected end of JSON input"
          | none => .error "invalid JSON object"
      | [] => .error "unexpected end of JSON input"
    else .error "cannot unmarshal non-object into map"
  | [] => .error "unexpected end of JSON input"

/-- Source `parseField` (`unnamed/part_001`, lines 160-222; `fields.go` is the
same function without the map case).  A custom setter, when the probe finds
one, is authoritative; otherwise the switch on the declared kind coerces the
string, and a kind with no case falls through the switch and returns `nil`
with the field untouched. -/
def parseField (value : String) (fv : FieldVal) : Except CoerceErr GoValue :=
  match extractSetter fv with
  | some s =>
    match s value with
    | .ok w => .ok w
    | .error msg => .error (.setterErr msg)
  | none =>
    match fv.ty with
    | .tString => .ok (.vString value)
    | .tInt bits isDur =>
      if bits = 64 ∧ isDur = true then
        match goParseDuration value with
        | some d => .ok (.vInt d)
        | none => .error (.durationErr value)
      else
        match goParseInt value bits with
        | some n => .ok (.vInt n)
        | none => .error (.intErr value)
    | .tBool =>
      match goParseBool value with
      | some b => .ok (.vBool b)
      | none => .error (.boolErr value)
    | .tFloat _ =>
      match goParseFloat value with
      | some q => .ok (.vFloat q)
      | none => .error (.floatErr value)
    | .tMap keyIsString =>
      if keyIsString = false then .error .mapKeyNotString
      else
        match jsonParseStrMap (stripQuotesChars (trimChars value.data)) with
        | .ok entries => .ok (.vMap entries)
        | .error msg => .error (.jsonErr msg)
    | .tOther _ => .ok fv.val

/-- The struct tags the engine reads (`reflect.StructTag.Get` returns the
empty string for an absent tag). -/
structure Tags where
  tagEnv : String := ""
  tagDefault : String := ""
  tagRequired : String := ""
deriving DecidableEq, Repr

/-- A struct's field list, embedded as a single inductive so every engine
function is structurally recursive: `consLeaf` is a non-struct field (with its
tags, `CanSet` capability and storage cell), `consNested` a nested struct
field whose own field list is `sub`. -/
inductive Rec where
  | nilR
  | consLeaf (name : String) (tags : Tags) (canSet : Bool) (fv : FieldVal) (rest : Rec)
  | consNested (name : String) (canSet : Bool) (sub : Rec) (rest : Rec)

/-- Source `Field` (`unnamed/part_001`): the descriptor the extractor emits
for one leaf.  The `reflect.Value` write handle is modelled by the field's
index `idx` in its struct's field list. -/
structure FieldInfo where
  idx : Nat
  Name : String
  Key : String
  EnvKey : String
  Required : Bool
  Default : String
deriving DecidableEq, Repr

/-- Key derivation of `extractFields` (`unnamed/part_001`, lines 130-152):
`envKey` is the upper-cased `env` tag; the key base is that override if
non-empty, else the declared field name; a non-empty prefix is prepended with
an underscore and the result upper-cased. -/
def mkInfo (pre name : String) (tags : Tags) (i : Nat) : FieldInfo :=
  let envKey := goToUpper tags.tagEnv
  let key0 := if envKey = "" then name else envKey
  let key1 := if pre = "" then key0 else goToUpper (pre ++ "_" ++ key0)
  { idx := i, Name := name, Key := goToUpper key1, EnvKey := envKey,
    Required := isTrue tags.tagRequired, Default := tags.tagDefault }

/-- The lookup key a descriptor would get, independent of its position. -/
def infoKeyOf (pre name : String) (tags : Tags) : String :=
  (mkInfo pre name tags 0).Key

/-- Leaf components stored at position `i` of a field list, if position `i`
is a leaf. -/
def getLeaf : Rec → Nat → Option (String × Tags × Bool × FieldVal)
  | .nilR, _ => none
  | .consLeaf n t c fv _, 0 => some (n, t, c, fv)
  | .consNested _ _ _ _, 0 => none
  | .consLeaf _ _ _ _ rest, i + 1 => getLeaf rest i
  | .consNested _ _ _ rest, i + 1 => getLeaf rest i

/-- Write through a descriptor's handle: replace the storage contents of the
leaf at position `i` (positions that are not a leaf are untouched). -/
def setLeafVal : Rec → Nat → GoValue → Rec
  | .nilR, _, _ => .nilR
  | .consLeaf n t c fv rest, 0, w => .consLeaf n t c { fv with val := w } rest
  | .consNested n c s rest, 0, _ => .consNested n c s rest
  | .consLeaf n t c fv rest, i + 1, w => .consLeaf n t c fv (setLeafVal rest i w)
  | .consNested n c s rest, i + 1, w => .consNested n c s (setLeafVal rest i w)

/-- Errors `Parse` can return: `ErrInvalidConfig`, the newer per-key required
error (`config: required key KEY missing value`), the older sentinel
`ErrRequiredField` of the Getenv variant, and `FieldError` (field name,
type/kind string, offending value, wrapped cause). -/
inductive ConfigErr where
  | invalidConfig
  | requiredKey (key : String)
  | requiredField
  | fieldErr (name ty value : String) (cause : CoerceErr)
deriving DecidableEq, Repr

/-- Result of parsing one struct's field list: on failure the error together
with the (possibly partially mutated) field list.  `tr` is the ghost trace of
lookup keys of the descriptors resolved so far, in resolution order; it exists
only in the model, to state ordering and frame claims. -/
inductive PRes where
  | ok (fs : Rec) (tr : List String)
  | fail (e : ConfigErr) (fs : Rec) (tr : List String)

/-- Environment lookup of the resolver loop (`config.go`, lines 31-35): try
`field.EnvKey`, and only if that misses `field.Key`; the boolean is `ok`, and
a double miss leaves `value` as the empty string. -/
def lookupValue (env : Env) (info : FieldInfo) : String × Bool :=
  match goLookupEnv env info.EnvKey with
  | some v => (v, true)
  | none =>
    match goLookupEnv env info.Key with
    | some v => (v, true)
    | none => ("", false)

/-- Key reported by the required-field error (`config.go`, lines 43-46):
the override key when one exists, else the primary key. -/
def effectiveKey (info : FieldInfo) : String :=
  if info.EnvKey = "" then info.Key else info.EnvKey

/-- Body of the resolver loop for one descriptor (`config.go`, lines 31-58):
look the value up, substitute the default when the lookup missed, fail on a
required field with neither, then coerce into the field's storage. -/
def resolveField (env : Env) (fs : Rec) (info : FieldInfo) : Except ConfigErr Rec :=
  let vo := lookupValue env info
  let value := if info.Default ≠ "" ∧ vo.2 = false then info.Default else vo.1
  if vo.2 = false ∧ info.Required = true ∧ info.Default = "" then
    .error (.requiredKey (effectiveKey info))
  else
    match getLeaf fs info.idx with
    | some (_, _, _, fv) =>
      match parseField value fv with
      | .ok w => .ok (setLeafVal fs info.idx w)
      | .error ce => .error (.fieldErr info.Name (typeName fv.ty) value ce)
    | none => .ok fs

/-- The resolver loop of `Parse` (`config.go`, lines 31-59): resolve the
descriptors in emission order, stopping at the first error. -/
def resolveLoop (env : Env) : List FieldInfo → Rec → List String → PRes
  | [], fs, tr => .ok fs tr
  | info :: rest, fs, tr =>
    match resolveField env fs info with
    | .ok fs' => resolveLoop env rest fs' (tr ++ [info.Key])
    | .error e => .fail e fs tr

/-- Extractor output: the field list after extraction (nested structs are
already fully parsed by then), the emitted descriptors, and the ghost trace of
keys resolved inside nested structs. -/
inductive ExOut where
  | ok (fs : Rec) (infos : List FieldInfo) (tr : List String)
  | fail (e : ConfigErr) (fs : Rec) (tr : List String)

/-- Source `extractFields` (`unnamed/part_001`, lines 105-157), with the
invalid-target guards lifted to `Parse`.  A non-settable field is skipped; a
nested struct field is handed to `Parse` recursively — so its whole subtree is
resolved during extraction — and contributes no descriptor; every other field
yields a descriptor carrying its index.  The first nested failure aborts
extraction. -/
def extractPhase (env : Env) (pre : String) : Rec → Nat → ExOut
  | .nilR, _ => .ok .nilR [] []
  | .consLeaf n t c fv rest, i =>
    if c then
      match extractPhase env pre rest (i + 1) with
      | .ok fs' infos tr => .ok (.consLeaf n t c fv fs') (mkInfo pre n t i :: infos) tr
      | .fail e fs' tr => .fail e (.consLeaf n t c fv fs') tr
    else
      match extractPhase env pre rest (i + 1) with
      | .ok fs' infos tr => .ok (.consLeaf n t c fv fs') infos tr
      | .fail e fs' tr => .fail e (.consLeaf n t c fv fs') tr
  | .consNested n c sub rest, i =>
    if c then
      match
        (match extractPhase env (pre ++ "_" ++ n) sub 0 with
         | .ok sub' infos2 tr2 => resolveLoop env infos2 sub' tr2
         | .fail e sub' tr2 => .fail e sub' tr2) with
      | .ok sub' trN =>
        match extractPhase env pre rest (i + 1) with
        | .ok fs' infos tr => .ok (.consNested n c sub' fs') infos (trN ++ tr)
        | .fail e fs' tr => .fail e (.consNested n c sub' fs') (trN ++ tr)
      | .fail e sub' trN => .fail e (.consNested n c sub' rest) trN
    else
      match extractPhase env pre rest (i + 1) with
      | .ok fs' infos tr => .ok (.consNested n c sub fs') infos tr
      | .fail e fs' tr => .fail e (.consNested n c sub fs') tr

/-- `Parse` on a pointer-to-struct target (`config.go`, lines 26-60):
extraction (which already resolves nested structs), then the resolver loop
over the emitted descriptors. -/
def parseStruct (env : Env) (pre : String) (fs : Rec) : PRes :=
  match extractPhase env pre fs 0 with
  | .ok fs' infos tr => resolveLoop env infos fs' tr
  | .fail e fs' tr => .fail e fs' tr

/-- Runtime kind of a Go value, as far as `Parse`'s guards inspect it. -/
inductive GoKind where
  | kPtr | kStruct | kString | kMap | kInt | kOther
deriving DecidableEq, Repr

/-- A `Parse` target (the `cfg any` argument): the nil interface, a pointer to
a struct, a pointer to some non-struct value, or a non-pointer value of the
given kind (`nonPtr` is only used with kinds other than `kPtr`). -/
inductive GoAny where
  | nilAny
  | ptrStruct (fs : Rec)
  | ptrNonStruct
  | nonPtr (k : GoKind)

/-- `reflect.TypeOf(cfg)`'s kind: `reflect.TypeOf(nil)` is the nil
`reflect.Type`, on which calling `Kind()` panics — modelled as `none`. -/
def reflectTypeKind : GoAny → Option GoKind
  | .nilAny => none
  | .ptrStruct _ => some .kPtr
  | .ptrNonStruct => some .kPtr
  | .nonPtr k => some k

/-- Outcome of a `Parse` call: success or failure (each carrying the target as
left behind, plus the ghost resolution trace), or a runtime panic. -/
inductive ParseResult where
  | ok (cfg : GoAny) (tr : List String)
  | fail (e : ConfigErr) (cfg : GoAny) (tr : List String)
  | panicked

/-- Source `Parse` (`config.go`, lines 23-61).  `env.Load` only pre-populates
the ambient environment and is outside the engine (the `env` argument is the
already-merged environment).  The `Kind() != Ptr` and `Elem().Kind() !=
Struct` guards return `ErrInvalidConfig`; a nil target makes the first guard
panic before any guard can return. -/
def Parse (env : Env) (pre : String) (cfg : GoAny) : ParseResult :=
  match reflectTypeKind cfg with
  | none => .panicked
  | some k =>
    if k ≠ .kPtr then .fail .invalidConfig cfg []
    else
      match cfg with
      | .ptrStruct fs =>
        match parseStruct env pre fs with
        | .ok fs' tr => .ok (.ptrStruct fs') tr
        | .fail e fs' tr => .fail e (.ptrStruct fs') tr
      | _ => .fail .invalidConfig cfg []

/-- The Getenv-based `Parse` variant (`unnamed/part_000`, lines 30-83),
factored over the string-returning lookup `g` (which is `os.Getenv`).  Nested
struct fields are recursed into inline, at their declaration position, before
`CanSet` is consulted; a leaf's value is the prefixed key's value, then — if
that is empty and an `env` tag exists — the bare upper-cased tag's value, then
the `default` tag; an empty final value skips the field, except that
`required:"true"` makes it fail with `ErrRequiredField`. -/
def parse0Core (g : String → String) (pre : String) : Rec → PRes
  | .nilR => .ok .nilR []
  | .consNested n c sub rest =>
    match parse0Core g (pre ++ "_" ++ n) sub with
    | .fail e sub' tr => .fail e (.consNested n c sub' rest) tr
    | .ok sub' trN =>
      match parse0Core g pre rest with
      | .ok rest' tr => .ok (.consNested n c sub' rest') (trN ++ tr)
      | .fail e rest' tr => .fail e (.consNested n c sub' rest') (trN ++ tr)
  | .consLeaf n t c fv rest =>
    if c then
      let customVariable := t.tagEnv
      let fieldName := if customVariable ≠ "" then customVariable else n
      let key := goToUpper (pre ++ "_" ++ fieldName)
      let v0 := g key
      let v1 := if v0 = "" ∧ customVariable ≠ "" then g (goToUpper fieldName) else v0
      let v2 := if v1 = "" ∧ t.tagDefault ≠ "" then t.tagDefault else v1
      if v2 = "" then
        if t.tagRequired = "true" then .fail .requiredField (.consLeaf n t c fv rest) []
        else
          match parse0Core g pre rest with
          | .ok rest' tr => .ok (.consLeaf n t c fv rest') tr
          | .fail e rest' tr => .fail e (.consLeaf n t c fv rest') tr
      else
        match parseField v2 fv with
        | .ok w =>
          match parse0Core g pre rest with
          | .ok rest' tr => .ok (.consLeaf n t c { fv with val := w } rest') (key :: tr)
          | .fail e rest' tr => .fail e (.consLeaf n t c { fv with val := w } rest') (key :: tr)
        | .error ce => .fail (.fieldErr fieldName (kindString fv.ty) v2 ce) (.consLeaf n t c fv rest) []
    else
      match parse0Core g pre rest with
      | .ok rest' tr => .ok (.consLeaf n t c fv rest') tr
      | .fail e rest' tr => .fail e (.consLeaf n t c fv rest') tr

/-- The Getenv-based variant applied to an ambient environment. -/
def parse0Fields (env : Env) (pre : String) (fs : Rec) : PRes :=
  parse0Core (goGetenv env) pre fs

/-- Modelled from the spec's words for claim C1 (section 4.2, step 1): look up
the primary `lookupKey` first, and only if it is absent and a `fallbackKey`
is set, look up the fallback.  Stated only for comparison against
`lookupValue`, the code's order. -/
def specLookupValue (env : Env) (info : FieldInfo) : String × Bool :=
  match goLookupEnv env info.Key with
  | some v => (v, true)
  | none =>
    if info.EnvKey ≠ "" then
      match goLookupEnv env info.EnvKey with
      | some v => (v, true)
      | none => ("", false)
    else ("", false)

/-- Lookup keys of the settable leaves of one struct level, in declaration
order (the keys its own descriptors will carry). -/
def leafKeys (pre : String) : Rec → List String
  | .nilR => []
  | .consLeaf n t c _ rest =>
    if c then infoKeyOf pre n t :: leafKeys pre rest else leafKeys pre rest
  | .consNested _ _ _ rest => leafKeys pre rest

/-- Keys resolved during the extraction phase of one struct level: for each
settable nested struct, in declaration order, the full (recursive) resolution
trace of that subtree. -/
def nestedTraces (pre : String) : Rec → List String
  | .nilR => []
  | .consLeaf _ _ _ _ rest => nestedTraces pre rest
  | .consNested n c sub rest =>
    if c then
      (nestedTraces (pre ++ "_" ++ n) sub ++ leafKeys (pre ++ "_" ++ n) sub) ++
        nestedTraces pre rest
    else nestedTraces pre rest

/-- The key order in which a successful `parseStruct` actually resolves
fields: all nested subtrees (during extraction) first, then the level's own
leaves. -/
def expectedTrace (pre : String) (fs : Rec) : List String :=
  nestedTraces pre fs ++ leafKeys pre fs

/-- The key order claim C2 describes: strict declaration order, depth-first,
nested subtrees spliced in at their declaration position. -/
def declKeys (pre : String) : Rec → List String
  | .nilR => []
  | .consLeaf n t c _ rest =>
    if c then infoKeyOf pre n t :: declKeys pre rest else declKeys pre rest
  | .consNested n c sub rest =>
    (if c then declKeys (pre ++ "_" ++ n) sub else []) ++ declKeys pre rest

/-- Sequential resolution of a descriptor list, recording only the final
record (used to phrase the frame property of claim C8). -/
def resolveSeq (env : Env) : List FieldInfo → Rec → Option Rec
  | [], fs => some fs
  | info :: rest, fs =>
    match resolveField env fs info with
    | .ok fs' => resolveSeq env rest fs'
    | .error _ => none

/-- Trace of a successful `Parse` outcome. -/
def okTrace : ParseResult → Option (List String)
  | .ok _ tr => some tr
  | _ => none

/-- Remove all entries whose value is the empty string from an environment
(used to phrase claim C9: the Getenv variant cannot tell such entries from
absent ones). -/
def scrubEmpty (env : Env) : Env := fun k =>
  match env k with
  | some v => if v = "" then none else some v
  | none => none

/-- Finite environment fixture. -/
def envOf (l : List (String × String)) : Env := fun k =>
  (l.find? (fun p => p.1 = k)).map Prod.snd

/-- Zero-valued string field. -/
def fvStr0 : FieldVal := { ty := .tString, val := .vString "" }

/-- Zero-valued `int` field (64-bit). -/
def fvInt0 : FieldVal := { ty := .tInt 64 false, val := .vInt 0 }

/-- Zero-valued `map[string]string` field. -/
def fvMap0 : FieldVal := { ty := .tMap true, val := .vMap [] }

/-- Zero-valued map field whose key type is not `string`. -/
def fvMapIntKey : FieldVal := { ty := .tMap false, val := .vMap [] }

/-- Field of a kind the coercion switch has no case for (`uint`). -/
def fvUint : FieldVal := { ty := .tOther "uint", val := .vOther }

/-- Concrete custom setter: stores the raw string's length. -/
def sW : String → Except String GoValue := fun s => .ok (.vInt s.length)

/-- Field whose value form exposes the setter capability. -/
def fvSet : FieldVal := { ty := .tBool, val := .vBool false, setterOnValue := some sW }

/-- The JSON object literal of the map examples. -/
def mapLit : String := "\x7b\"a\":\"b\"\x7d"

/-- A malformed map literal. -/
def badMapLit : String := "\x7boops"

/-- The same JSON object literal wrapped in one layer of single quotes. -/
def mapLitSQ : String := String.mk (squoteC :: mapLit.data ++ [squoteC])

/-- Tag fixture with an `env` override. -/
def tagsPort : Tags := { tagEnv := "port" }

/-- One-field record for the C1 counterexample: an `int` leaf with override
tag `port`. -/
def recC1 : Rec := .consLeaf "Port" tagsPort true fvInt0 .nilR

/-- Environment with both the prefixed and the bare override key set, to
different values. -/
def envC1 : Env := envOf [("APP_PORT", "1"), ("PORT", "2")]

/-- The descriptor extraction emits for `recC1` under prefix `app`. -/
def infoC1 : FieldInfo := mkInfo "app" "Port" tagsPort 0

/-- `recC1` after `Parse` under `envC1`: the field holds `2`, the bare
override key's value. -/
def recC1done : Rec :=
  .consLeaf "Port" tagsPort true { ty := .tInt 64 false, val := .vInt 2 } .nilR

/-- One-field string record with the `port` override, for the C1 amended
witness. -/
def recW1 : Rec := .consLeaf "Port" tagsPort true fvStr0 .nilR

/-- Environment with only the bare override key set. -/
def envW1 : Env := envOf [("PORT", "p")]

/-- Three-field record for C2: leaf `A`, nested struct `B` with leaf `X`,
leaf `C`. -/
def recC2 : Rec :=
  .consLeaf "A" {} true fvStr0
    (.consNested "B" true (.consLeaf "X" {} true fvStr0 .nilR)
      (.consLeaf "C" {} true fvStr0 .nilR))

/-- Environment supplying all three `recC2` keys. -/
def envC2 : Env := envOf [("APP_A", "a"), ("APP_B_X", "x"), ("APP_C", "c")]

/-- `recC2` fully parsed under `envC2`. -/
def recC2done : Rec :=
  .consLeaf "A" {} true { ty := .tString, val := .vString "a" }
    (.consNested "B" true (.consLeaf "X" {} true { ty := .tString, val := .vString "x" } .nilR)
      (.consLeaf "C" {} true { ty := .tString, val := .vString "c" } .nilR))

/-- Tags of a required field with a default. -/
def tagsU : Tags := { tagDefault := "joseph", tagRequired := "true" }

/-- One-field record with a required-with-default string leaf. -/
def recU : Rec := .consLeaf "User" tagsU true fvStr0 .nilR

/-- Its descriptor under prefix `app`. -/
def infoU : FieldInfo := mkInfo "app" "User" tagsU 0

/-- Descriptors of the three-leaf record used by the C8 witness. -/
def infoA8 : FieldInfo := mkInfo "APP" "A" {} 0

/-- Second descriptor (the failing one: an int leaf fed a non-number). -/
def infoB8 : FieldInfo := mkInfo "APP" "B" {} 1

/-- Third descriptor (never resolved). -/
def infoC8 : FieldInfo := mkInfo "APP" "C" {} 2

/-- Record of leaves `A : string`, `B : int`, `C : string`. -/
def recW8 : Rec :=
  .consLeaf "A" {} true fvStr0
    (.consLeaf "B" {} true fvInt0 (.consLeaf "C" {} true fvStr0 .nilR))

/-- Environment giving `B` an unparsable integer. -/
def envW8 : Env := envOf [("APP_A", "a"), ("APP_B", "notanum"), ("APP_C", "c")]

/-- `recW8` after `A` resolved and before `B` failed: exactly `A` updated. -/
def recW8' : Rec :=
  .consLeaf "A" {} true { ty := .tString, val := .vString "a" }
    (.consLeaf "B" {} true fvInt0 (.consLeaf "C" {} true fvStr0 .nilR))

/-- Environment whose `APP_HOST` entry is present but empty. -/
def envW9 : Env := envOf [("APP_HOST", "")]

/-! Claim theorems. -/

/-- C1, counterexample: with both `APP_PORT=1` (the prefixed primary key) and
`PORT=2` (the bare override key) set, the resolver stores `2` — the bare
override key's value — whereas the claimed primary-first order
(`specLookupValue`) would pick `1`.  The code's lookup order is the reverse of
the claimed one. -/
theorem c1_counterexample :
    Parse envC1 "app" (.ptrStruct recC1) = .ok (.ptrStruct recC1done) ["APP_PORT"]
    ∧ lookupValue envC1 infoC1 = ("2", true)
    ∧ specLookupValue envC1 infoC1 = ("1", true)
    ∧ decide ((("2", true) : String × Bool) = ("1", true)) = false :=
  ⟨rfl, rfl, rfl, rfl⟩

/-- C1, amended: resolution looks up the fallback (bare upper-cased override)
key in the environment first, and consults the primary (prefixed) key only
when that lookup misses; in particular, when only the bare override key is
set, the field resolves from it.  Stated for a string-typed leaf with no
custom setter, so the stored value is the looked-up string verbatim. -/
theorem c1_amended (env : Env) (fs : Rec) (info : FieldInfo) (n : String)
    (t : Tags) (c : Bool) (fv : FieldVal) (v : String)
    (hleaf : getLeaf fs info.idx = some (n, t, c, fv))
    (hty : fv.ty = .tString) (hset : extractSetter fv = none) :
    (goLookupEnv env info.EnvKey = some v →
      resolveField env fs info = .ok (setLeafVal fs info.idx (.vString v)))
    ∧ (goLookupEnv env info.EnvKey = none → goLookupEnv env info.Key = some v →
      resolveField env fs info = .ok (setLeafVal fs info.idx (.vString v))) := by
  constructor
  · intro h1
    simp [resolveField, lookupValue, h1, hleaf, parseField, hset, hty]
  · intro h1 h2
    simp [resolveField, lookupValue, h1, h2, hleaf, parseField, hset, hty]

/-- C1, witness for the amended theorem: with only `PORT=p` set, the `Port`
field (override tag `port`, prefix `app`) resolves to `p`. -/
theorem c1_amended_witness :
    resolveField envW1 recW1 infoC1 = .ok (setLeafVal recW1 0 (.vString "p")) :=
  (c1_amended envW1 recW1 infoC1 "Port" tagsPort true fvStr0 "p" rfl rfl rfl).1 rfl

/-- C4, counterexample: a field of a kind outside the coercion switch (here
`uint`) with no custom setter produces no error at all — `parseField` falls
through the switch and returns success with the field untouched (an `Except`
that is `ok` is not an `error`), instead of failing with an unsupported-kind
error as claimed. -/
theorem c4_counterexample : parseField "42" fvUint = .ok .vOther := rfl

/-- C4, amended: for every resolved string value whose field's declared type
has no custom setter and no built-in coercion rule, coercion silently
succeeds, leaving the field at its prior value (the switch has no default
case, so `parseField` returns nil without touching the field). -/
theorem c4_amended (v : String) (fv : FieldVal) (k : String)
    (hset : extractSetter fv = none) (hty : fv.ty = .tOther k) :
    parseField v fv = .ok fv.val := by
  simp [parseField, hset, hty]

/-- C4, witness: the amended no-op behaviour at the concrete `uint` field. -/
theorem c4_amended_witness : parseField "42" fvUint = .ok fvUint.val :=
  c4_amended "42" fvUint "uint" rfl rfl

/-- C5: a target that is a non-pointer value (of any non-pointer kind) or a
pointer to a non-struct makes `Parse` return `ErrInvalidConfig` immediately,
with the target unchanged and nothing resolved (empty trace). -/
theorem c5_invalid_target (env : Env) (pre : String) :
    (∀ k : GoKind, k ≠ .kPtr →
      Parse env pre (.nonPtr k) = .fail .invalidConfig (.nonPtr k) [])
    ∧ Parse env pre .ptrNonStruct = .fail .invalidConfig .ptrNonStruct [] := by
  constructor
  · intro k hk
    cases k <;> simp_all [Parse, reflectTypeKind]
  · rfl

/-- C5, witness: the invalid-target error at a concrete map target. -/
theorem c5_invalid_target_witness :
    Parse (envOf []) "app" (.nonPtr .kMap) = .fail .invalidConfig (.nonPtr .kMap) [] :=
  (c5_invalid_target (envOf []) "app").1 .kMap (by decide)

/-- C7: when the setter capability is found — on the field value itself when
`CanInterface` holds and a value-form setter exists, else on its reference —
coercion delegates entirely to the setter: its result, success or failure, is
the result of `parseField`, for every declared field type (no built-in rule is
consulted). -/
theorem c7_setter_authoritative :
    (∀ (fv : FieldVal) (v : String) (s : String → Except String GoValue),
      fv.canInterface = true → fv.setterOnValue = some s →
      parseField v fv =
        match s v with
        | .ok w => .ok w
        | .error msg => .error (.setterErr msg))
    ∧ (∀ (fv : FieldVal) (v : String) (s : String → Except String GoValue),
      (if fv.canInterface then fv.setterOnValue else none) = none →
      fv.canAddr = true → fv.setterOnAddr = some s →
      parseField v fv =
        match s v with
        | .ok w => .ok w
        | .error msg => .error (.setterErr msg)) := by
  constructor
  · intro fv v s hci hs
    simp [parseField, extractSetter, hci, hs]
  · intro fv v s hval hca hs
    simp [parseField, extractSetter, hval, hca, hs]

/-- C7, witness: a concrete value-form setter that stores the input's length;
`parseField` returns exactly its result, ignoring the declared `bool` type. -/
theorem c7_setter_witness : parseField "abc" fvSet = .ok (.vInt 3) :=
  ((c7_setter_authoritative).1 fvSet "abc" sW rfl rfl).trans rfl

/-- The resolver's lookup misses exactly when both keys are absent. -/
theorem lookupValue_false_iff (env : Env) (info : FieldInfo) :
    (lookupValue env info).2 = false ↔
      goLookupEnv env info.EnvKey = none ∧ goLookupEnv env info.Key = none := by
  unfold lookupValue
  rcases h1 : goLookupEnv env info.EnvKey with _ | v
  · rcases h2 : goLookupEnv env info.Key with _ | w <;> simp
  · simp

/-- C3: with no environment value under either lookup key, a non-empty
default literal is coerced into the field and the required flag is ignored
(the conclusion holds for every value of `info.Required`); and `Parse`'s
per-field step produces the required-key error exactly when the field is
required, both lookups miss, and no default exists — naming the fallback key
when one is present, else the primary key (`effectiveKey`). -/
theorem c3_default_beats_required (env : Env) (fs : Rec) (info : FieldInfo) :
    (∀ (n : String) (t : Tags) (c : Bool) (fv : FieldVal) (w : GoValue),
      goLookupEnv env info.EnvKey = none → goLookupEnv env info.Key = none →
      info.Default ≠ "" →
      getLeaf fs info.idx = some (n, t, c, fv) →
      parseField info.Default fv = .ok w →
      resolveField env fs info = .ok (setLeafVal fs info.idx w))
    ∧ (∀ k, resolveField env fs info = .error (.requiredKey k) ↔
        (goLookupEnv env info.EnvKey = none ∧ goLookupEnv env info.Key = none ∧
         info.Required = true ∧ info.Default = "" ∧ k = effectiveKey info)) := by
  constructor
  · intro n t c fv w h1 h2 hdef hleaf hp
    simp [resolveField, lookupValue, h1, h2, hdef, hleaf, hp]
  · intro k
    constructor
    · intro h
      simp only [resolveField] at h
      by_cases hc : (lookupValue env info).2 = false ∧ info.Required = true ∧
          info.Default = ""
      · rw [if_pos hc] at h
        obtain ⟨hf, hr, hd⟩ := hc
        obtain ⟨h1, h2⟩ := (lookupValue_false_iff env info).mp hf
        injection h with h'
        injection h' with h''
        exact ⟨h1, h2, hr, hd, h''.symm⟩
      · exfalso
        rw [if_neg hc] at h
        generalize (if info.Default ≠ "" ∧ (lookupValue env info).2 = false
            then info.Default else (lookupValue env info).1) = val at h
        rcases hg : getLeaf fs info.idx with _ | ⟨n, t, c, fv⟩
        · simp [hg] at h
        · simp only [hg] at h
          rcases hp : parseField val fv with ce | w <;> simp [hp] at h
    · rintro ⟨h1, h2, hreq, hdef, hk⟩
      subst hk
      simp [resolveField, lookupValue, h1, h2, hreq, hdef]

/-- C3, witness: a required string field with default `joseph`, nothing set in
the environment: the default is stored and no required error occurs. -/
theorem c3_witness :
    resolveField (envOf []) recU infoU = .ok (setLeafVal recU 0 (.vString "joseph")) :=
  (c3_default_beats_required (envOf []) recU infoU).1 "User" tagsU true fvStr0
    (.vString "joseph") rfl rfl (by decide) rfl rfl

/-- `dropWhile` is the identity when the head already fails the predicate. -/
theorem dropWhile_eq_self_of_head {p : Char → Bool} {cs : List Char} {a : Char}
    (ha : cs.head? = some a) (hna : p a = false) : cs.dropWhile p = cs := by
  cases cs with
  | nil => cases ha
  | cons x t =>
    injection ha with ha'
    subst ha'
    simp [List.dropWhile_cons, hna]

/-- `trimChars` is the identity on a string whose first and last characters
are not whitespace. -/
theorem trimChars_eq_self {cs : List Char} {a b : Char}
    (ha : cs.head? = some a) (hna : isGoSpace a = false)
    (hb : cs.getLast? = some b) (hnb : isGoSpace b = false) :
    trimChars cs = cs := by
  unfold trimChars
  rw [dropWhile_eq_self_of_head ha hna]
  rw [dropWhile_eq_self_of_head (p := isGoSpace) (a := b)
    (by rw [List.head?_reverse]; exact hb) hnb]
  exact List.reverse_reverse cs

/-- `stripQuotesChars` passes through a string starting with an opening curly
bracket. -/
theorem stripQuotes_eq_self_of_brace {cs : List Char}
    (ha : cs.head? = some lbraceC) : stripQuotesChars cs = cs := by
  unfold stripQuotesChars
  rw [if_neg, if_neg]
  · rintro ⟨-, h2, -⟩
    rw [ha] at h2
    exact absurd (Option.some.inj h2) (by decide)
  · rintro ⟨-, h2, -⟩
    rw [ha] at h2
    exact absurd (Option.some.inj h2) (by decide)

/-- `stripQuotesChars` removes exactly one layer of surrounding single
quotes. -/
theorem stripQuotes_single_quoted (cs : List Char) :
    stripQuotesChars (squoteC :: cs ++ [squoteC]) = cs := by
  unfold stripQuotesChars
  rw [if_neg, if_pos]
  · show interior (squoteC :: cs ++ [squoteC]) = cs
    show ((cs ++ [squoteC]) : List Char).dropLast = cs
    exact List.dropLast_concat
  · refine ⟨by simp, rfl, ?_⟩
    rw [show squoteC :: cs ++ [squoteC] = (squoteC :: cs) ++ [squoteC] from rfl,
      List.getLast?_concat]
  · rintro ⟨-, h2, -⟩
    exact absurd (Option.some.inj h2) (by decide)

/-- C6: the map coercion first strips one layer of surrounding matching
quotes, then parses the remainder as a JSON object.  For any value of JSON
object shape (first character an opening and last a closing curly bracket),
wrapping it in single quotes coerces identically to the bare value; the
literal of the spec's example yields the mapping `a : b`, both bare and
single-quoted; a map whose key type is not string is rejected; and a
malformed literal yields a JSON coercion error. -/
theorem c6_map_coercion :
    (∀ (s : String) (fv : FieldVal), extractSetter fv = none → fv.ty = .tMap true →
      s.data.head? = some lbraceC → s.data.getLast? = some rbraceC →
      parseField (String.mk (squoteC :: s.data ++ [squoteC])) fv = parseField s fv)
    ∧ parseField mapLit fvMap0 = .ok (.vMap [("a", "b")])
    ∧ parseField mapLitSQ fvMap0 = .ok (.vMap [("a", "b")])
    ∧ parseField mapLit fvMapIntKey = .error .mapKeyNotString
    ∧ parseField badMapLit fvMap0 = .error (.jsonErr "invalid JSON object") := by
  refine ⟨?_, rfl, rfl, rfl, rfl⟩
  intro s fv hset hty h1 h2
  have e1 : trimChars (squoteC :: s.data ++ [squoteC]) =
      squoteC :: s.data ++ [squoteC] := by
    refine trimChars_eq_self (a := squoteC) (b := squoteC) rfl (by decide) ?_ (by decide)
    show (squoteC :: s.data ++ [squoteC]).getLast? = some squoteC
    rw [show squoteC :: s.data ++ [squoteC] = (squoteC :: s.data) ++ [squoteC] from rfl,
      List.getLast?_concat]
  have e3 : trimChars s.data = s.data :=
    trimChars_eq_self h1 (by decide) h2 (by decide)
  simp only [parseField, hset, hty]
  rw [e1, stripQuotes_single_quoted s.data, e3, stripQuotes_eq_self_of_brace h1]

/-- C6, witness for the quote-stripping invariance: the single-quoted example
literal coerces exactly like the bare one. -/
theorem c6_map_coercion_witness : parseField mapLitSQ fvMap0 = parseField mapLit fvMap0 :=
  c6_map_coercion.1 mapLit fvMap0 rfl rfl rfl rfl

/-- Writing one leaf leaves every other position unchanged. -/
theorem getLeaf_setLeafVal_ne (fs : Rec) (i j : Nat) (w : GoValue) (hne : j ≠ i) :
    getLeaf (setLeafVal fs i w) j = getLeaf fs j := by
  induction fs generalizing i j with
  | nilR => simp [setLeafVal, getLeaf]
  | consLeaf n t c fv rest ih =>
    cases i with
    | zero =>
      cases j with
      | zero => exact absurd rfl hne
      | succ j' => simp [setLeafVal, getLeaf]
    | succ i' =>
      cases j with
      | zero => simp [setLeafVal, getLeaf]
      | succ j' =>
        simp only [setLeafVal, getLeaf]
        exact ih i' j' (fun h => hne (by rw [h]))
  | consNested n c sub rest ihs ih =>
    cases i with
    | zero =>
      cases j with
      | zero => exact absurd rfl hne
      | succ j' => simp [setLeafVal, getLeaf]
    | succ i' =>
      cases j with
      | zero => simp [setLeafVal, getLeaf]
      | succ j' =>
        simp only [setLeafVal, getLeaf]
        exact ih i' j' (fun h => hne (by rw [h]))

/-- A successful per-field resolution touches only its own descriptor's
position. -/
theorem resolveField_ok_frame (env : Env) (fs fs2 : Rec) (info : FieldInfo)
    (h : resolveField env fs info = .ok fs2) :
    ∀ j, j ≠ info.idx → getLeaf fs2 j = getLeaf fs j := by
  intro j hj
  simp only [resolveField] at h
  by_cases hc : (lookupValue env info).2 = false ∧ info.Required = true ∧
      info.Default = ""
  · rw [if_pos hc] at h
    cases h
  · rw [if_neg hc] at h
    generalize (if info.Default ≠ "" ∧ (lookupValue env info).2 = false
        then info.Default else (lookupValue env info).1) = val at h
    rcases hg : getLeaf fs info.idx with _ | ⟨n, t, c, fv⟩
    · simp only [hg] at h
      injection h with h'
      rw [← h']
    · simp only [hg] at h
      rcases hp : parseField val fv with ce | w <;> simp only [hp] at h
      · cases h
      · injection h with h'
        rw [← h']
        exact getLeaf_setLeafVal_ne fs info.idx j w hj

/-- Sequential resolution touches only the positions of its descriptors. -/
theorem resolveSeq_frame (env : Env) (done : List FieldInfo) (fs fs' : Rec)
    (h : resolveSeq env done fs = some fs') :
    ∀ j, j ∉ done.map (·.idx) → getLeaf fs' j = getLeaf fs j := by
  induction done generalizing fs with
  | nil =>
    intro j _
    injection h with h'
    rw [h']
  | cons i rest ih =>
    intro j hj
    simp only [resolveSeq] at h
    rcases hr : resolveField env fs i with e | fs1 <;> rw [hr] at h
    · cases h
    · have hj1 : j ∉ rest.map (·.idx) := fun hm => hj (by simp [hm])
      have hj2 : j ≠ i.idx := fun hp => hj (by simp [hp])
      rw [ih fs1 h j hj1]
      exact resolveField_ok_frame env fs fs1 i hr j hj2

/-- The resolver loop runs a successfully-resolving prefix of its descriptor
list first, accumulating exactly that prefix's keys in the trace. -/
theorem resolveLoop_seq_append (env : Env) (done l2 : List FieldInfo)
    (fs fs' : Rec) (tr : List String) (h : resolveSeq env done fs = some fs') :
    resolveLoop env (done ++ l2) fs tr = resolveLoop env l2 fs' (tr ++ done.map (·.Key)) := by
  induction done generalizing fs tr with
  | nil =>
    injection h with h'
    rw [h']
    simp
  | cons i rest ih =>
    simp only [resolveSeq] at h
    rcases hr : resolveField env fs i with e | fs1 <;> rw [hr] at h
    · cases h
    · show resolveLoop env (i :: (rest ++ l2)) fs tr = _
      simp only [resolveLoop, hr]
      rw [ih fs1 (tr ++ [i.Key]) h]
      congr 1
      simp

/-- C8: when the resolver loop's first failure happens at some descriptor,
the whole call fails with exactly that error; every descriptor resolved
before it has been applied to the record (`fs'` is the sequential result of
the preceding prefix), every position outside that prefix — the failing
field's and all later ones — still holds its prior value, and the trace shows
that no descriptor after the failing one was resolved. -/
theorem c8_failfast_frame (env : Env) (done : List FieldInfo) (bad : FieldInfo)
    (rest : List FieldInfo) (fs fs' : Rec) (e : ConfigErr)
    (hseq : resolveSeq env done fs = some fs')
    (hbad : resolveField env fs' bad = .error e) :
    resolveLoop env (done ++ bad :: rest) fs [] = .fail e fs' (done.map (·.Key))
    ∧ ∀ j, j ∉ done.map (·.idx) → getLeaf fs' j = getLeaf fs j := by
  constructor
  · rw [resolveLoop_seq_append env done (bad :: rest) fs fs' [] hseq]
    simp [resolveLoop, hbad]
  · exact resolveSeq_frame env done fs fs' hseq

/-- C8, witness: three leaves `A`, `B`, `C`; `A` resolves to `a`, `B` fails on
a malformed integer, so the loop stops with exactly `A` updated and only `A`
in the trace. -/
theorem c8_failfast_witness :
    resolveLoop envW8 ([infoA8] ++ infoB8 :: [infoC8]) recW8 [] =
      .fail (.fieldErr "B" "int64" "notanum" (.intErr "notanum")) recW8' ["APP_A"] :=
  (c8_failfast_frame envW8 [infoA8] infoB8 [infoC8] recW8 recW8'
    (.fieldErr "B" "int64" "notanum" (.intErr "notanum")) rfl rfl).1

/-- A successful resolver loop appends exactly its descriptors' keys to the
trace, in list order. -/
theorem resolveLoop_ok_trace (env : Env) :
    ∀ (infos : List FieldInfo) (fs : Rec) (tr : List String) (fs' : Rec)
      (tr' : List String), resolveLoop env infos fs tr = .ok fs' tr' →
      tr' = tr ++ infos.map (·.Key) := by
  intro infos
  induction infos with
  | nil =>
    intro fs tr fs' tr' h
    injection h with _ h2
    rw [← h2]
    simp
  | cons i rest ih =>
    intro fs tr fs' tr' h
    simp only [resolveLoop] at h
    rcases hr : resolveField env fs i with e | fs1 <;> rw [hr] at h
    · cases h
    · rw [ih fs1 (tr ++ [i.Key]) fs' tr' h]
      simp

/-- A successful extraction emits descriptors whose keys are exactly the
level's settable leaf keys in declaration order, and a trace that is exactly
the nested subtrees' resolution traces in declaration order. -/
theorem extractPhase_ok_spec (env : Env) (fs : Rec) :
    ∀ (pre : String) (i : Nat) (fs' : Rec) (infos : List FieldInfo)
      (tr : List String), extractPhase env pre fs i = .ok fs' infos tr →
      infos.map (·.Key) = leafKeys pre fs ∧ tr = nestedTraces pre fs := by
  induction fs with
  | nilR =>
    intro pre i fs' infos tr h
    injection h with _ h2 h3
    rw [← h2, ← h3]
    simp [leafKeys, nestedTraces]
  | consLeaf n t c fv rest ih =>
    intro pre i fs' infos tr h
    simp only [extractPhase] at h
    by_cases hc : c = true
    · rw [if_pos hc] at h
      rcases hrest : extractPhase env pre rest (i + 1) with ⟨fs1, infos1, tr1⟩ | _ <;>
        rw [hrest] at h
      · injection h with _ h2 h3
        obtain ⟨hk, ht⟩ := ih pre (i + 1) fs1 infos1 tr1 hrest
        rw [← h2, ← h3]
        simp [leafKeys, nestedTraces, hc, hk, ht]
        rfl
      · cases h
    · rw [if_neg hc] at h
      rcases hrest : extractPhase env pre rest (i + 1) with ⟨fs1, infos1, tr1⟩ | _ <;>
        rw [hrest] at h
      · injection h with _ h2 h3
        obtain ⟨hk, ht⟩ := ih pre (i + 1) fs1 infos1 tr1 hrest
        rw [← h2, ← h3]
        simp [leafKeys, nestedTraces, hc, hk, ht]
      · cases h
  | consNested n c sub rest ihs ihr =>
    intro pre i fs' infos tr h
    simp only [extractPhase] at h
    by_cases hc : c = true
    · rw [if_pos hc] at h
      rcases hsub : extractPhase env (pre ++ "_" ++ n) sub 0 with
          ⟨sub2, infos2, tr2⟩ | ⟨e, sub2, tr2⟩
      · rcases hrl : resolveLoop env infos2 sub2 tr2 with ⟨sub3, trN⟩ | ⟨e, sub3, trN⟩
        · rcases hrest : extractPhase env pre rest (i + 1) with
              ⟨fs1, infos1, tr1⟩ | ⟨e, fs1, tr1⟩
          · simp only [hsub, hrl, hrest] at h
            injection h with _ h2 h3
            obtain ⟨hk2, ht2⟩ := ihs (pre ++ "_" ++ n) 0 sub2 infos2 tr2 hsub
            obtain ⟨hk1, ht1⟩ := ihr pre (i + 1) fs1 infos1 tr1 hrest
            have htrN : trN = nestedTraces (pre ++ "_" ++ n) sub ++
                leafKeys (pre ++ "_" ++ n) sub := by
              rw [resolveLoop_ok_trace env infos2 sub2 tr2 sub3 trN hrl, ht2, hk2]
            rw [← h2, ← h3]
            simp [leafKeys, nestedTraces, hc, hk1, ht1, htrN]
          · simp [hsub, hrl, hrest] at h
        · simp [hsub, hrl] at h
      · simp [hsub] at h
    · rw [if_neg hc] at h
      rcases hrest : extractPhase env pre rest (i + 1) with ⟨fs1, infos1, tr1⟩ | _ <;>
        rw [hrest] at h
      · injection h with _ h2 h3
        obtain ⟨hk, ht⟩ := ihr pre (i + 1) fs1 infos1 tr1 hrest
        rw [← h2, ← h3]
        simp [leafKeys, nestedTraces, hc, hk, ht]
      · cases h

/-- The actual resolution order is a permutation of the declaration order:
every leaf key occurs exactly as often in both. -/
theorem expectedTrace_perm (pre : String) (fs : Rec) :
    (expectedTrace pre fs).Perm (declKeys pre fs) := by
  induction fs generalizing pre with
  | nilR => simp [expectedTrace, nestedTraces, leafKeys, declKeys]
  | consLeaf n t c fv rest ih =>
    by_cases hc : c = true <;>
      simp only [expectedTrace, nestedTraces, leafKeys, declKeys, hc, if_true,
        if_false, Bool.false_eq_true, reduceIte] at ih ⊢
    · exact List.perm_middle.trans ((ih pre).cons _)
    · exact ih pre
  | consNested n c sub rest ihs ihr =>
    by_cases hc : c = true <;>
      simp only [expectedTrace, nestedTraces, leafKeys, declKeys, hc, if_true,
        if_false, Bool.false_eq_true, reduceIte] at ihs ihr ⊢
    · rw [List.append_assoc]
      exact (ihs (pre ++ "_" ++ n)).append (ihr pre)
    · exact ihr pre

/-- C2, counterexample: in the record with leaf `A`, nested struct `B`
(containing `X`), then leaf `C`, a successful `Parse` resolves `B.X` first —
during extraction — and only then `A` and `C`, while the claimed strict
declaration order would be `A`, `B.X`, `C`. -/
theorem c2_counterexample :
    okTrace (Parse envC2 "APP" (.ptrStruct recC2)) = some ["APP_B_X", "APP_A", "APP_C"]
    ∧ declKeys "APP" recC2 = ["APP_A", "APP_B_X", "APP_C"]
    ∧ decide ((["APP_B_X", "APP_A", "APP_C"] : List String) =
        ["APP_A", "APP_B_X", "APP_C"]) = false :=
  ⟨rfl, rfl, rfl⟩

/-- C2, amended: each leaf field is resolved exactly once per successful
`Parse` call, but not in strict declaration order: at every record level, the
fields of settable nested records are fully resolved during extraction —
before any direct leaf of that level — in declaration order among themselves,
and the level's own leaves follow afterwards in declaration order
(`expectedTrace`); the multiset of resolved keys is exactly the declaration-
order key list (`declKeys`), so each leaf is resolved exactly once. -/
theorem c2_resolution_order (env : Env) (pre : String) (fs fs' : Rec)
    (tr : List String) (h : parseStruct env pre fs = .ok fs' tr) :
    tr = expectedTrace pre fs ∧ tr.Perm (declKeys pre fs) := by
  unfold parseStruct at h
  rcases hex : extractPhase env pre fs 0 with ⟨fs1, infos, tr1⟩ | _ <;> rw [hex] at h
  · obtain ⟨hk, ht⟩ := extractPhase_ok_spec env fs pre 0 fs1 infos tr1 hex
    have htr := resolveLoop_ok_trace env infos fs1 tr1 fs' tr h
    have : tr = expectedTrace pre fs := by
      rw [htr, ht, hk, expectedTrace]
    exact ⟨this, this ▸ expectedTrace_perm pre fs⟩
  · cases h

/-- C2, witness for the amended theorem: the concrete three-field record's
successful trace equals `expectedTrace` and is a permutation of the
declaration-order keys. -/
theorem c2_resolution_order_witness :
    (["APP_B_X", "APP_A", "APP_C"] : List String) = expectedTrace "APP" recC2
    ∧ (["APP_B_X", "APP_A", "APP_C"] : List String).Perm (declKeys "APP" recC2) :=
  c2_resolution_order envC2 "APP" recC2 recC2done ["APP_B_X", "APP_A", "APP_C"] rfl

/-- The per-field step never produces the invalid-config error. -/
theorem resolveField_error_ne_invalid (env : Env) (fs : Rec) (info : FieldInfo)
    (e : ConfigErr) (h : resolveField env fs info = .error e) :
    e ≠ .invalidConfig := by
  simp only [resolveField] at h
  by_cases hc : (lookupValue env info).2 = false ∧ info.Required = true ∧
      info.Default = ""
  · rw [if_pos hc] at h
    injection h with h'
    rw [← h']
    exact fun hcon => ConfigErr.noConfusion hcon
  · rw [if_neg hc] at h
    generalize (if info.Default ≠ "" ∧ (lookupValue env info).2 = false
        then info.Default else (lookupValue env info).1) = val at h
    rcases hg : getLeaf fs info.idx with _ | ⟨n, t, c, fv⟩
    · simp [hg] at h
    · simp only [hg] at h
      rcases hp : parseField val fv with ce | w <;> simp only [hp] at h
      · injection h with h'
        rw [← h']
        exact fun hcon => ConfigErr.noConfusion hcon
      · cases h

/-- The resolver loop never fails with the invalid-config error. -/
theorem resolveLoop_fail_ne_invalid (env : Env) :
    ∀ (infos : List FieldInfo) (fs : Rec) (tr : List String) (e : ConfigErr)
      (fs' : Rec) (tr' : List String),
      resolveLoop env infos fs tr = .fail e fs' tr' → e ≠ .invalidConfig := by
  intro infos
  induction infos with
  | nil =>
    intro fs tr e fs' tr' h
    cases h
  | cons i rest ih =>
    intro fs tr e fs' tr' h
    simp only [resolveLoop] at h
    rcases hr : resolveField env fs i with e2 | fs1 <;> rw [hr] at h
    · injection h with h'
      rw [← h']
      exact resolveField_error_ne_invalid env fs i e2 hr
    · exact ih fs1 (tr ++ [i.Key]) e fs' tr' h

/-- Extraction (including the nested-struct parses it performs) never fails
with the invalid-config error. -/
theorem extractPhase_fail_ne_invalid (env : Env) (fs : Rec) :
    ∀ (pre : String) (i : Nat) (e : ConfigErr) (fs' : Rec) (tr : List String),
      extractPhase env pre fs i = .fail e fs' tr → e ≠ .invalidConfig := by
  induction fs with
  | nilR =>
    intro pre i e fs' tr h
    cases h
  | consLeaf n t c fv rest ih =>
    intro pre i e fs' tr h
    simp only [extractPhase] at h
    by_cases hc : c = true <;> [rw [if_pos hc] at h; rw [if_neg hc] at h] <;>
      · rcases hrest : extractPhase env pre rest (i + 1) with _ | ⟨e2, fs1, tr1⟩ <;>
          rw [hrest] at h
        · cases h
        · injection h with h'
          rw [← h']
          exact ih pre (i + 1) e2 fs1 tr1 hrest
  | consNested n c sub rest ihs ihr =>
    intro pre i e fs' tr h
    simp only [extractPhase] at h
    by_cases hc : c = true
    · rw [if_pos hc] at h
      rcases hsub : extractPhase env (pre ++ "_" ++ n) sub 0 with
          ⟨sub2, infos2, tr2⟩ | ⟨e2, sub2, tr2⟩
      · rcases hrl : resolveLoop env infos2 sub2 tr2 with ⟨sub3, trN⟩ | ⟨e2, sub3, trN⟩
        · rcases hrest : extractPhase env pre rest (i + 1) with
              ⟨fs1, infos1, tr1⟩ | ⟨e2, fs1, tr1⟩
          · simp [hsub, hrl, hrest] at h
          · simp only [hsub, hrl, hrest] at h
            injection h with h'
            rw [← h']
            exact ihr pre (i + 1) e2 fs1 tr1 hrest
        · simp only [hsub, hrl] at h
          injection h with h'
          rw [← h']
          exact resolveLoop_fail_ne_invalid env infos2 sub2 tr2 e2 sub3 trN hrl
      · simp only [hsub] at h
        injection h with h'
        rw [← h']
        exact ihs (pre ++ "_" ++ n) 0 e2 sub2 tr2 hsub
    · rw [if_neg hc] at h
      rcases hrest : extractPhase env pre rest (i + 1) with _ | ⟨e2, fs1, tr1⟩ <;>
        rw [hrest] at h
      · cases h
      · injection h with h'
        rw [← h']
        exact ihr pre (i + 1) e2 fs1 tr1 hrest

/-- Parsing a struct target never fails with the invalid-config error. -/
theorem parseStruct_fail_ne_invalid (env : Env) (pre : String) (fs : Rec)
    (e : ConfigErr) (fs' : Rec) (tr : List String)
    (h : parseStruct env pre fs = .fail e fs' tr) : e ≠ .invalidConfig := by
  unfold parseStruct at h
  rcases hex : extractPhase env pre fs 0 with ⟨fs1, infos, tr1⟩ | ⟨e2, fs1, tr1⟩ <;>
    rw [hex] at h
  · exact resolveLoop_fail_ne_invalid env infos fs1 tr1 e fs' tr h
  · injection h with h'
    rw [← h']
    exact extractPhase_fail_ne_invalid env fs pre 0 e2 fs1 tr1 hex

/-- C10: a nil target does not reach the invalid-config error — the kind test
on the nil reflected type panics first — and the invalid-config error is
produced only for targets that are neither nil nor a pointer to a struct. -/
theorem c10_nil_panics (env : Env) (pre : String) :
    Parse env pre .nilAny = .panicked
    ∧ ∀ (cfg res : GoAny) (tr : List String),
        Parse env pre cfg = .fail .invalidConfig res tr →
        cfg ≠ .nilAny ∧ ∀ fs, cfg ≠ .ptrStruct fs := by
  refine ⟨rfl, ?_⟩
  intro cfg res tr h
  cases cfg with
  | nilAny => simp [Parse, reflectTypeKind] at h
  | ptrStruct fs =>
    exfalso
    simp only [Parse, reflectTypeKind] at h
    rw [if_neg (by simp)] at h
    rcases hps : parseStruct env pre fs with ⟨fs2, tr2⟩ | ⟨e, fs2, tr2⟩ <;>
      simp only [hps] at h
    · cases h
    · injection h with h'
      exact parseStruct_fail_ne_invalid env pre fs e fs2 tr2 hps h'
  | ptrNonStruct =>
    exact ⟨fun hcon => GoAny.noConfusion hcon, fun fs hcon => GoAny.noConfusion hcon⟩
  | nonPtr k =>
    exact ⟨fun hcon => GoAny.noConfusion hcon, fun fs hcon => GoAny.noConfusion hcon⟩

/-- C10, witness: the panic at a concrete nil-target call, and the
invalid-config branch exercised at a concrete map (non-pointer) target, which
is indeed not nil. -/
theorem c10_nil_panics_witness :
    Parse (envOf []) "app" .nilAny = .panicked
    ∧ GoAny.nonPtr .kMap ≠ GoAny.nilAny :=
  ⟨(c10_nil_panics (envOf []) "app").1,
   ((c10_nil_panics (envOf []) "app").2 (.nonPtr .kMap) (.nonPtr .kMap) [] rfl).1⟩

/-- C9: the Getenv-based variant cannot distinguish an environment entry whose
value is the empty string from an absent entry (deleting all empty-valued
entries changes nothing); in particular an empty-valued entry still lets a
default literal apply, and a required field with an empty-valued entry and no
default fails with `ErrRequiredField` even though its key is present. -/
theorem c9_empty_is_absent :
    (∀ (env : Env) (pre : String) (fs : Rec),
      parse0Fields (scrubEmpty env) pre fs = parse0Fields env pre fs)
    ∧ (∀ (env : Env) (pre n d : String) (fv : FieldVal) (w : GoValue),
      env (goToUpper (pre ++ "_" ++ n)) = some "" → d ≠ "" →
      parseField d fv = .ok w →
      parse0Core (goGetenv env) pre (.consLeaf n { tagDefault := d } true fv .nilR) =
        .ok (.consLeaf n { tagDefault := d } true { fv with val := w } .nilR)
          [goToUpper (pre ++ "_" ++ n)])
    ∧ (∀ (env : Env) (pre n : String) (fv : FieldVal) (rest : Rec),
      env (goToUpper (pre ++ "_" ++ n)) = some "" →
      parse0Core (goGetenv env) pre (.consLeaf n { tagRequired := "true" } true fv rest) =
        .fail .requiredField (.consLeaf n { tagRequired := "true" } true fv rest) []) := by
  refine ⟨?_, ?_, ?_⟩
  · intro env pre fs
    have hg : goGetenv (scrubEmpty env) = goGetenv env := by
      funext k
      unfold goGetenv goLookupEnv scrubEmpty
      by_cases hk : k = ""
      · simp [hk]
      · rcases henv : env k with _ | v <;> simp [hk, henv]
        by_cases hv : v = "" <;> simp [hv]
    unfold parse0Fields
    rw [hg]
  · intro env pre n d fv w hkey hd hp
    have hkv : goGetenv env (goToUpper (pre ++ "_" ++ n)) = "" := by
      unfold goGetenv goLookupEnv
      by_cases hk : goToUpper (pre ++ "_" ++ n) = "" <;> simp [hk, hkey]
    simp [parse0Core, hkv, hd, hp]
  · intro env pre n fv rest hkey
    have hkv : goGetenv env (goToUpper (pre ++ "_" ++ n)) = "" := by
      unfold goGetenv goLookupEnv
      by_cases hk : goToUpper (pre ++ "_" ++ n) = "" <;> simp [hk, hkey]
    simp [parse0Core, hkv]

/-- C9, witness: `APP_HOST` present with empty value, field required with no
default: `ErrRequiredField`. -/
theorem c9_empty_is_absent_witness :
    parse0Core (goGetenv envW9) "app"
        (.consLeaf "Host" { tagRequired := "true" } true fvStr0 .nilR) =
      .fail .requiredField (.consLeaf "Host" { tagRequired := "true" } true fvStr0 .nilR) [] :=
  c9_empty_is_absent.2.2 envW9 "app" "Host" fvStr0 .nilR rfl

end GoConfig
